import Mathlib

/-!
Formal model of geard's job dispatch and fan-out execution core.

The CLI layer is embedded from `src/cmd/commands.go`.  The Dispatcher,
Executor and Locator-parsing packages of the repository are not present
under `src/` (only their callers and configuration are), so those parts
are modelled from the specification (spec.md §§4.1-4.3, 5, 7); each such
definition is marked `Modelled from the spec:` in its doc comment.
-/

/-! ## Dispatcher: data model (modelled from the spec)

Modelled from the spec: §4.1 Dispatcher — two priority lanes (fast/slow),
a bounded worker pool of size `Concurrent`, and a DuplicateTracker holding
in-flight request identifiers plus an LRU list of at most
`TrackDuplicateIds` recently completed identifiers.  The package
`github.com/smarterclayton/geard/dispatcher` is not under `src/`.
-/

/-- A request identifier: a process-unique token (spec §3). -/
abbrev RequestIdentifier := Nat

/-- The two priority lanes of the Dispatcher (spec §4.1). -/
inductive Lane where
  | fast
  | slow
deriving DecidableEq, Repr

/-- A job as the Dispatcher sees it: its request identifier and its lane. -/
structure Job where
  requestId : RequestIdentifier
  lane : Lane
deriving DecidableEq, Repr

/-- Dispatcher configuration (spec §4.1): recognized options. -/
structure DispatcherConfig where
  QueueFast : Nat
  QueueSlow : Nat
  Concurrent : Nat
  TrackDuplicateIds : Nat
deriving DecidableEq, Repr

/-- Modelled from the spec: the Dispatcher's mutable state — the two lanes
(FIFO queues), the set of running jobs, and the DuplicateTracker split into
in-flight identifiers and the LRU list of recently completed identifiers
(most recent first). -/
structure DispatcherState where
  fastQueue : List Job
  slowQueue : List Job
  running : List Job
  inflight : List RequestIdentifier
  recent : List RequestIdentifier
deriving DecidableEq, Repr

/-- The initial (empty) Dispatcher state. -/
def DispatcherState.initial : DispatcherState :=
  { fastQueue := [], slowQueue := [], running := [], inflight := [], recent := [] }

/-- Result of `Submit` (spec §4.1 contract, §7 error taxonomy). -/
inductive SubmitResult where
  | accepted
  | queueFull
  | duplicateRequest
deriving DecidableEq, Repr

/-- The queue of a lane. -/
def DispatcherState.laneQueue (s : DispatcherState) : Lane → List Job
  | Lane.fast => s.fastQueue
  | Lane.slow => s.slowQueue

/-- The capacity configured for a lane. -/
def DispatcherConfig.laneCap (cfg : DispatcherConfig) : Lane → Nat
  | Lane.fast => cfg.QueueFast
  | Lane.slow => cfg.QueueSlow

/-- Modelled from the spec: `Submit(job)` — fails with `DuplicateRequest`
when the job's RequestIdentifier is already tracked as in-flight or
recently completed; fails with `QueueFull` when the job's lane is at
capacity; on success the job is placed at the tail of its lane and the
identifier is immediately recorded as in-flight (spec §4.1). -/
def Dispatcher.submit (cfg : DispatcherConfig) (s : DispatcherState) (j : Job) :
    SubmitResult × DispatcherState :=
  if j.requestId ∈ s.inflight ∨ j.requestId ∈ s.recent then
    (SubmitResult.duplicateRequest, s)
  else
    match j.lane with
    | Lane.fast =>
      if s.fastQueue.length < cfg.QueueFast then
        (SubmitResult.accepted,
         { s with fastQueue := s.fastQueue ++ [j], inflight := j.requestId :: s.inflight })
      else (SubmitResult.queueFull, s)
    | Lane.slow =>
      if s.slowQueue.length < cfg.QueueSlow then
        (SubmitResult.accepted,
         { s with slowQueue := s.slowQueue ++ [j], inflight := j.requestId :: s.inflight })
      else (SubmitResult.queueFull, s)

/-- Modelled from the spec: a worker becoming free pulls from the fast lane
if non-empty, otherwise from the slow lane, and only while fewer than
`Concurrent` jobs are running (spec §4.1, §5). -/
def Dispatcher.startNext (cfg : DispatcherConfig) (s : DispatcherState) :
    Option (Job × DispatcherState) :=
  if s.running.length < cfg.Concurrent then
    match s.fastQueue with
    | j :: rest => some (j, { s with fastQueue := rest, running := s.running ++ [j] })
    | [] =>
      match s.slowQueue with
      | j :: rest => some (j, { s with slowQueue := rest, running := s.running ++ [j] })
      | [] => none
  else none

/-- Modelled from the spec: on completion (success or failure) the job
leaves the Running state and its RequestIdentifier transitions from
in-flight to the head of the recently-completed LRU list, which is
truncated to `TrackDuplicateIds` entries (spec §4.1). -/
def Dispatcher.complete (cfg : DispatcherConfig) (s : DispatcherState) (j : Job) :
    DispatcherState :=
  if j ∈ s.running then
    { s with
      running := s.running.erase j,
      inflight := s.inflight.erase j.requestId,
      recent := (j.requestId :: s.recent).take cfg.TrackDuplicateIds }
  else s

/-- The events a Dispatcher reacts to. -/
inductive DEvent where
  | submit (j : Job)
  | start
  | complete (j : Job)
deriving DecidableEq, Repr

/-- One atomic transition of the Dispatcher (spec §5: all mutations of the
queues and the DuplicateTracker are serialized). -/
def Dispatcher.step (cfg : DispatcherConfig) (s : DispatcherState) : DEvent → DispatcherState
  | DEvent.submit j => (Dispatcher.submit cfg s j).2
  | DEvent.start =>
    match Dispatcher.startNext cfg s with
    | some (_, s2) => s2
    | none => s
  | DEvent.complete j => Dispatcher.complete cfg s j

/-- The states a Dispatcher can reach from the empty initial state. -/
inductive Dispatcher.Reachable (cfg : DispatcherConfig) : DispatcherState → Prop where
  | init : Dispatcher.Reachable cfg DispatcherState.initial
  | step {s : DispatcherState} (e : DEvent) :
      Dispatcher.Reachable cfg s → Dispatcher.Reachable cfg (Dispatcher.step cfg s e)

/-- All jobs currently held by the Dispatcher: queued in either lane or running. -/
def DispatcherState.active (s : DispatcherState) : List Job :=
  s.fastQueue ++ s.slowQueue ++ s.running

/-- The inductive invariant of the Dispatcher: the worker-pool bound, the
uniqueness of active request identifiers, the in-flight tracking of every
active job, and the capacity bound of the LRU list. -/
def DispatcherInv (cfg : DispatcherConfig) (s : DispatcherState) : Prop :=
  s.running.length ≤ cfg.Concurrent ∧
  (s.active.map Job.requestId).Nodup ∧
  (∀ j ∈ s.active, j.requestId ∈ s.inflight) ∧
  s.recent.length ≤ cfg.TrackDuplicateIds

theorem dispatcherInv_initial (cfg : DispatcherConfig) :
    DispatcherInv cfg DispatcherState.initial := by
  refine ⟨?_, ?_, ?_, ?_⟩ <;> simp [DispatcherState.initial, DispatcherState.active]

theorem requestId_notMem_active_map {s : DispatcherState} {j : Job}
    (hmem : ∀ j2 ∈ s.active, j2.requestId ∈ s.inflight)
    (hni : j.requestId ∉ s.inflight) :
    j.requestId ∉ s.active.map Job.requestId := by
  intro hin
  rcases List.mem_map.mp hin with ⟨j2, hj2, hid⟩
  exact hni (hid ▸ hmem j2 hj2)

theorem dispatcherInv_submit (cfg : DispatcherConfig) (s : DispatcherState) (j : Job)
    (h : DispatcherInv cfg s) : DispatcherInv cfg (Dispatcher.submit cfg s j).2 := by
  obtain ⟨h1, h2, h3, h4⟩ := h
  unfold Dispatcher.submit
  by_cases hdup : j.requestId ∈ s.inflight ∨ j.requestId ∈ s.recent
  · simp only [hdup, if_true]
    exact ⟨h1, h2, h3, h4⟩
  · simp only [hdup, if_false]
    have hni : j.requestId ∉ s.inflight := fun hc => hdup (Or.inl hc)
    have hnm : j.requestId ∉ s.active.map Job.requestId :=
      requestId_notMem_active_map h3 hni
    cases hl : j.lane with
    | fast =>
      by_cases hcap : s.fastQueue.length < cfg.QueueFast
      · simp only [hcap, if_true]
        refine ⟨h1, ?_, ?_, h4⟩
        · have heq : ((s.fastQueue ++ [j]) ++ s.slowQueue ++ s.running).map Job.requestId
              = s.fastQueue.map Job.requestId ++
                j.requestId :: (s.slowQueue.map Job.requestId ++ s.running.map Job.requestId) := by
            simp
          simp only [DispatcherState.active] at *
          rw [heq, List.nodup_middle, List.nodup_cons]
          constructor
          · intro hc
            apply hnm
            simp only [List.map_append, List.mem_append] at hc ⊢
            tauto
          · simpa using h2
        · intro j2 hj2
          simp only [DispatcherState.active, List.mem_append, List.mem_cons] at hj2 ⊢
          rcases hj2 with (⟨hf | hj⟩ | hs) | hr
          · exact Or.inr (h3 j2 (by simp [DispatcherState.active, hf]))
          · rcases hj with hj | hj
            · exact Or.inl (by rw [hj])
            · exact absurd hj (List.not_mem_nil j2)
          · exact Or.inr (h3 j2 (by simp [DispatcherState.active, hs]))
          · exact Or.inr (h3 j2 (by simp [DispatcherState.active, hr]))
      · simp only [hcap, if_false]
        exact ⟨h1, h2, h3, h4⟩
    | slow =>
      by_cases hcap : s.slowQueue.length < cfg.QueueSlow
      · simp only [hcap, if_true]
        refine ⟨h1, ?_, ?_, h4⟩
        · have heq : (s.fastQueue ++ (s.slowQueue ++ [j]) ++ s.running).map Job.requestId
              = (s.fastQueue.map Job.requestId ++ s.slowQueue.map Job.requestId) ++
                j.requestId :: s.running.map Job.requestId := by
            simp
          simp only [DispatcherState.active] at *
          rw [heq, List.nodup_middle, List.nodup_cons]
          constructor
          · intro hc
            apply hnm
            simp only [List.map_append, List.mem_append] at hc ⊢
            tauto
          · simpa using h2
        · intro j2 hj2
          simp only [DispatcherState.active, List.mem_append, List.mem_cons] at hj2 ⊢
          rcases hj2 with (hf | ⟨hs | hj⟩) | hr
          · exact Or.inr (h3 j2 (by simp [DispatcherState.active, hf]))
          · exact Or.inr (h3 j2 (by simp [DispatcherState.active, hs]))
          · rcases hj with hj | hj
            · exact Or.inl (by rw [hj])
            · exact absurd hj (List.not_mem_nil j2)
          · exact Or.inr (h3 j2 (by simp [DispatcherState.active, hr]))
      · simp only [hcap, if_false]
        exact ⟨h1, h2, h3, h4⟩

theorem active_perm_of_pull_fast {s : DispatcherState} {j : Job} {rest : List Job}
    (hf : s.fastQueue = j :: rest) :
    (rest ++ s.slowQueue ++ (s.running ++ [j])).Perm s.active := by
  have h1 : rest ++ s.slowQueue ++ (s.running ++ [j])
      = (rest ++ s.slowQueue ++ s.running) ++ [j] := by
    simp
  have h2 : s.active = j :: (rest ++ s.slowQueue ++ s.running) := by
    simp [DispatcherState.active, hf]
  rw [h1, h2]
  exact List.perm_append_singleton j (rest ++ s.slowQueue ++ s.running)

theorem active_perm_of_pull_slow {s : DispatcherState} {j : Job} {rest : List Job}
    (hf : s.fastQueue = []) (hs : s.slowQueue = j :: rest) :
    ([] ++ rest ++ (s.running ++ [j])).Perm s.active := by
  have h1 : [] ++ rest ++ (s.running ++ [j])
      = (rest ++ s.running) ++ [j] := by
    simp
  have h2 : s.active = j :: (rest ++ s.running) := by
    simp [DispatcherState.active, hf, hs]
  rw [h1, h2]
  exact List.perm_append_singleton j (rest ++ s.running)

theorem dispatcherInv_start (cfg : DispatcherConfig) (s : DispatcherState)
    (h : DispatcherInv cfg s) :
    DispatcherInv cfg (Dispatcher.step cfg s DEvent.start) := by
  obtain ⟨h1, h2, h3, h4⟩ := h
  simp only [Dispatcher.step, Dispatcher.startNext]
  by_cases hlt : s.running.length < cfg.Concurrent
  · simp only [hlt, if_true]
    cases hf : s.fastQueue with
    | cons j rest =>
      have hperm := active_perm_of_pull_fast (s := s) hf
      refine ⟨by simp; omega, ?_, ?_, h4⟩
      · simp only [DispatcherState.active]
        exact (hperm.map Job.requestId).nodup_iff.mpr h2
      · intro j2 hj2
        simp only [DispatcherState.active] at hj2
        exact h3 j2 (hperm.mem_iff.mp hj2)
    | nil =>
      cases hs : s.slowQueue with
      | cons j rest =>
        have hperm := active_perm_of_pull_slow (s := s) hf hs
        refine ⟨by simp; omega, ?_, ?_, h4⟩
        · simp only [DispatcherState.active]
          exact (hperm.map Job.requestId).nodup_iff.mpr h2
        · intro j2 hj2
          simp only [DispatcherState.active] at hj2
          exact h3 j2 (hperm.mem_iff.mp hj2)
      | nil => exact ⟨h1, h2, h3, h4⟩
  · simp only [hlt, if_false]
    exact ⟨h1, h2, h3, h4⟩

theorem dispatcherInv_complete (cfg : DispatcherConfig) (s : DispatcherState) (j : Job)
    (h : DispatcherInv cfg s) :
    DispatcherInv cfg (Dispatcher.complete cfg s j) := by
  obtain ⟨h1, h2, h3, h4⟩ := h
  unfold Dispatcher.complete
  by_cases hmem : j ∈ s.running
  · simp only [hmem, if_true]
    have hsub : List.Sublist (s.fastQueue ++ s.slowQueue ++ s.running.erase j) s.active :=
      (List.erase_sublist j s.running).append_left (s.fastQueue ++ s.slowQueue)
    have hnodupActive : s.active.Nodup := List.Nodup.of_map Job.requestId h2
    refine ⟨le_trans (List.erase_sublist j s.running).length_le h1, ?_, ?_, ?_⟩
    · exact List.Nodup.sublist (hsub.map Job.requestId) h2
    · intro j2 hj2
      have hj2s : j2 ∈ s.active := hsub.subset hj2
      have hid : j2.requestId ∈ s.inflight := h3 j2 hj2s
      have hjActive : j ∈ s.active := by
        simp only [DispatcherState.active, List.mem_append]
        exact Or.inr hmem
      have hne : j2.requestId ≠ j.requestId := by
        intro heq
        have hj2j : j2 = j := List.inj_on_of_nodup_map h2 hj2s hjActive heq
        subst hj2j
        have hcle : s.active.count j2 ≤ 1 :=
          List.nodup_iff_count_le_one.mp hnodupActive j2
        have hc1 : 0 < s.running.count j2 := List.count_pos_iff.mpr hmem
        simp only [DispatcherState.active, List.count_append] at hcle
        simp only [DispatcherState.active, List.mem_append] at hj2
        rcases hj2 with (hf | hs) | hr
        · have : 0 < s.fastQueue.count j2 := List.count_pos_iff.mpr hf
          omega
        · have : 0 < s.slowQueue.count j2 := List.count_pos_iff.mpr hs
          omega
        · have hre : (s.running.erase j2).count j2 = s.running.count j2 - 1 :=
            List.count_erase_self j2 s.running
          have : 0 < (s.running.erase j2).count j2 := List.count_pos_iff.mpr hr
          omega
      exact (List.mem_erase_of_ne hne).mpr hid
    · show ((j.requestId :: s.recent).take cfg.TrackDuplicateIds).length ≤ cfg.TrackDuplicateIds
      simp only [List.length_take]
      omega
  · simp only [hmem, if_false]
    exact ⟨h1, h2, h3, h4⟩

theorem dispatcherInv_step (cfg : DispatcherConfig) (s : DispatcherState) (e : DEvent)
    (h : DispatcherInv cfg s) : DispatcherInv cfg (Dispatcher.step cfg s e) := by
  cases e with
  | submit j => exact dispatcherInv_submit cfg s j h
  | start => exact dispatcherInv_start cfg s h
  | complete j => exact dispatcherInv_complete cfg s j h

theorem dispatcherInv_reachable (cfg : DispatcherConfig) (s : DispatcherState)
    (h : Dispatcher.Reachable cfg s) : DispatcherInv cfg s := by
  induction h with
  | init => exact dispatcherInv_initial cfg
  | step e _ ih => exact dispatcherInv_step cfg _ e ih

theorem submit_running_eq (cfg : DispatcherConfig) (s : DispatcherState) (j : Job) :
    (Dispatcher.submit cfg s j).2.running = s.running := by
  unfold Dispatcher.submit
  by_cases hdup : j.requestId ∈ s.inflight ∨ j.requestId ∈ s.recent
  · simp [hdup]
  · simp only [hdup, if_false]
    cases j.lane <;> dsimp only <;> split <;> rfl

theorem submit_duplicate_of_tracked (cfg : DispatcherConfig) (s : DispatcherState) (j : Job)
    (h : j.requestId ∈ s.inflight ∨ j.requestId ∈ s.recent) :
    (Dispatcher.submit cfg s j).1 = SubmitResult.duplicateRequest := by
  unfold Dispatcher.submit
  simp [h]

theorem mem_running_step_start (cfg : DispatcherConfig) (s : DispatcherState) (j : Job)
    (hj : j ∈ s.running) :
    j ∈ (Dispatcher.step cfg s DEvent.start).running := by
  simp only [Dispatcher.step, Dispatcher.startNext]
  by_cases hlt : s.running.length < cfg.Concurrent
  · simp only [hlt, if_true]
    cases hf : s.fastQueue with
    | cons j2 rest => simp [hj]
    | nil =>
      cases hs : s.slowQueue with
      | cons j2 rest => simp [hj]
      | nil => simpa using hj
  · simp only [hlt, if_false]
    exact hj

/-- Embedded from `src/cmd/commands.go` (lines 31-41): `var conf =
http.HttpConfiguration{ Dispatcher: &dispatcher.Dispatcher{ QueueFast: 10,
QueueSlow: 1, Concurrent: 2, TrackDuplicateIds: 1000 }, ... }`. -/
structure HttpConfiguration where
  Dispatcher : DispatcherConfig
deriving DecidableEq, Repr

/-- The daemon configuration literal from `src/cmd/commands.go`. -/
def conf : HttpConfiguration :=
  { Dispatcher :=
      { QueueFast := 10, QueueSlow := 1, Concurrent := 2, TrackDuplicateIds := 1000 } }

/-- A concrete fast-lane job, used in witnesses. -/
def exJobFast : Job := { requestId := 1, lane := Lane.fast }

/-- A concrete slow-lane job, used in witnesses. -/
def exJobSlow : Job := { requestId := 2, lane := Lane.slow }

/-- A second concrete slow-lane job with a distinct identifier. -/
def exJobSlow2 : Job := { requestId := 3, lane := Lane.slow }

/-- The state after submitting `exJobFast` to the empty daemon Dispatcher. -/
def exState1 : DispatcherState :=
  Dispatcher.step conf.Dispatcher DispatcherState.initial (DEvent.submit exJobFast)

/-- The state after submitting `exJobSlow` to the empty daemon Dispatcher. -/
def exState2 : DispatcherState :=
  Dispatcher.step conf.Dispatcher DispatcherState.initial (DEvent.submit exJobSlow)

/-- **C1**: for every Dispatcher configured with `Concurrent = N`, every reachable
state has at most N jobs Running; whenever the fast lane is non-empty, a freed
worker dequeues the head of the fast lane (the slow lane is left untouched, so a
fast-lane job is always taken before any slow-lane job); and no transition
removes a job from Running except that job's own completion event. -/
theorem dispatcher_bounded_concurrency_and_fast_priority
    (cfg : DispatcherConfig) (s : DispatcherState) (h : Dispatcher.Reachable cfg s) :
    s.running.length ≤ cfg.Concurrent
    ∧ (∀ j rest, s.fastQueue = j :: rest → s.running.length < cfg.Concurrent →
        Dispatcher.startNext cfg s =
          some (j, { s with fastQueue := rest, running := s.running ++ [j] }))
    ∧ (∀ e j, j ∈ s.running →
        j ∈ (Dispatcher.step cfg s e).running ∨ e = DEvent.complete j) := by
  refine ⟨(dispatcherInv_reachable cfg s h).1, ?_, ?_⟩
  · intro j rest hf hlt
    simp [Dispatcher.startNext, hlt, hf]
  · intro e j hj
    cases e with
    | submit j2 =>
      left
      show j ∈ (Dispatcher.submit cfg s j2).2.running
      rw [submit_running_eq]
      exact hj
    | start => exact Or.inl (mem_running_step_start cfg s j hj)
    | complete j2 =>
      by_cases hjj : j2 = j
      · subst hjj
        exact Or.inr rfl
      · left
        show j ∈ (Dispatcher.complete cfg s j2).running
        unfold Dispatcher.complete
        by_cases hm : j2 ∈ s.running
        · simp only [hm, if_true]
          exact (List.mem_erase_of_ne fun he => hjj he.symm).mpr hj
        · simp only [hm, if_false]
          exact hj

/-- Witness for C1: in the daemon configuration, after one fast submission the
freed worker dequeues exactly that fast job. -/
theorem dispatcher_fast_priority_witness :
    Dispatcher.startNext conf.Dispatcher exState1 =
      some (exJobFast,
        { exState1 with fastQueue := [], running := exState1.running ++ [exJobFast] }) :=
  (dispatcher_bounded_concurrency_and_fast_priority conf.Dispatcher exState1
      (Dispatcher.Reachable.step (DEvent.submit exJobFast) Dispatcher.Reachable.init)).2.1
    exJobFast [] (by decide) (by decide)

/-- **C2**: while a job with a given RequestIdentifier is Queued or Running, any
submission carrying the same identifier returns `DuplicateRequest`; after the
first job completes, resubmission with that identifier still returns
`DuplicateRequest` as long as the identifier is tracked in the recently-completed
LRU list; and an identifier is evicted from that list only when it already holds
`TrackDuplicateIds` entries, and only from the least-recently-used end. -/
theorem dispatcher_duplicate_suppression (cfg : DispatcherConfig) (s : DispatcherState)
    (h : Dispatcher.Reachable cfg s) :
    (∀ j, (j ∈ s.fastQueue ∨ j ∈ s.slowQueue ∨ j ∈ s.running) →
      ∀ j2, j2.requestId = j.requestId →
        (Dispatcher.submit cfg s j2).1 = SubmitResult.duplicateRequest)
    ∧ (∀ j, j ∈ s.running → 1 ≤ cfg.TrackDuplicateIds →
        ∀ j2, j2.requestId = j.requestId →
          (Dispatcher.submit cfg (Dispatcher.complete cfg s j) j2).1 =
            SubmitResult.duplicateRequest)
    ∧ (∀ r, r ∈ s.recent → ∀ j2, j2.requestId = r →
        (Dispatcher.submit cfg s j2).1 = SubmitResult.duplicateRequest)
    ∧ (∀ j, j ∈ s.running → ∀ r, r ∈ s.recent → r ∉ (Dispatcher.complete cfg s j).recent →
        s.recent.length = cfg.TrackDuplicateIds ∧
          r ∈ s.recent.drop (cfg.TrackDuplicateIds - 1)) := by
  obtain ⟨h1, h2, h3, h4⟩ := dispatcherInv_reachable cfg s h
  refine ⟨?_, ?_, ?_, ?_⟩
  · intro j hj j2 hid
    apply submit_duplicate_of_tracked
    left
    rw [hid]
    apply h3
    simp only [DispatcherState.active, List.mem_append]
    tauto
  · intro j hjr hcap j2 hid
    apply submit_duplicate_of_tracked
    right
    show j2.requestId ∈ (Dispatcher.complete cfg s j).recent
    unfold Dispatcher.complete
    simp only [hjr, if_true]
    rcases Nat.exists_eq_add_of_le hcap with ⟨k, hk⟩
    rw [hk, List.take_cons]
    · simp [hid]
    · omega
  · intro r hr j2 hid
    apply submit_duplicate_of_tracked
    right
    rw [hid]
    exact hr
  · intro j hjr r hr hnot
    unfold Dispatcher.complete at hnot
    simp only [hjr, if_true] at hnot
    have hrc : r ∈ j.requestId :: s.recent := List.mem_cons_of_mem _ hr
    have hsplit := List.take_append_drop cfg.TrackDuplicateIds (j.requestId :: s.recent)
    have hrd : r ∈ (j.requestId :: s.recent).drop cfg.TrackDuplicateIds := by
      have : r ∈ (j.requestId :: s.recent).take cfg.TrackDuplicateIds ++
          (j.requestId :: s.recent).drop cfg.TrackDuplicateIds := by
        rw [hsplit]
        exact hrc
      rcases List.mem_append.mp this with hcase | hcase
      · exact absurd hcase hnot
      · exact hcase
    cases hcap : cfg.TrackDuplicateIds with
    | zero =>
      rw [hcap] at h4
      have : s.recent = [] := List.length_eq_zero.mp (Nat.le_zero.mp h4)
      rw [this] at hr
      exact absurd hr (List.not_mem_nil r)
    | succ k =>
      rw [hcap] at hrd
      simp only [List.drop_succ_cons] at hrd
      have hlen : k < s.recent.length := by
        by_contra hle
        push_neg at hle
        rw [List.drop_eq_nil_of_le hle] at hrd
        exact absurd hrd (List.not_mem_nil r)
      constructor
      · omega
      · simpa using hrd

/-- Witness for C2: with the fast job queued in the daemon Dispatcher,
resubmitting the same identifier is rejected as a duplicate. -/
theorem dispatcher_duplicate_witness :
    (Dispatcher.submit conf.Dispatcher exState1 exJobFast).1 =
      SubmitResult.duplicateRequest :=
  (dispatcher_duplicate_suppression conf.Dispatcher exState1
      (Dispatcher.Reachable.step (DEvent.submit exJobFast) Dispatcher.Reachable.init)).1
    exJobFast (by decide) exJobFast rfl

/-- **C3**: for a submission whose RequestIdentifier is not already tracked, the
submission is accepted exactly when the pending jobs of its lane, counting the
new one, stay at or below the lane's capacity, and rejected with `QueueFull`
exactly when they would exceed it; an accepted submission grows its lane by one,
never past capacity. -/
theorem dispatcher_queue_capacity (cfg : DispatcherConfig) (s : DispatcherState) (j : Job)
    (hfi : j.requestId ∉ s.inflight) (hfr : j.requestId ∉ s.recent) :
    ((Dispatcher.submit cfg s j).1 = SubmitResult.accepted ↔
        (s.laneQueue j.lane).length + 1 ≤ cfg.laneCap j.lane)
    ∧ ((Dispatcher.submit cfg s j).1 = SubmitResult.queueFull ↔
        cfg.laneCap j.lane < (s.laneQueue j.lane).length + 1)
    ∧ ((Dispatcher.submit cfg s j).1 = SubmitResult.accepted →
        ((Dispatcher.submit cfg s j).2.laneQueue j.lane).length =
          (s.laneQueue j.lane).length + 1 ∧
        ((Dispatcher.submit cfg s j).2.laneQueue j.lane).length ≤ cfg.laneCap j.lane) := by
  have hdup : ¬(j.requestId ∈ s.inflight ∨ j.requestId ∈ s.recent) := by
    intro hc
    rcases hc with hc | hc
    · exact hfi hc
    · exact hfr hc
  unfold Dispatcher.submit
  simp only [hdup, if_false]
  cases hl : j.lane with
  | fast =>
    by_cases hcap : s.fastQueue.length < cfg.QueueFast <;>
      refine ⟨?_, ?_, ?_⟩ <;>
      simp [hcap, DispatcherState.laneQueue, DispatcherConfig.laneCap, hl] <;>
      omega
  | slow =>
    by_cases hcap : s.slowQueue.length < cfg.QueueSlow <;>
      refine ⟨?_, ?_, ?_⟩ <;>
      simp [hcap, DispatcherState.laneQueue, DispatcherConfig.laneCap, hl] <;>
      omega

/-- Witness for C3: submitting a fresh fast job to the empty daemon Dispatcher
(lane holds 0 of 10) is accepted. -/
theorem dispatcher_queue_capacity_witness :
    (Dispatcher.submit conf.Dispatcher DispatcherState.initial exJobFast).1 =
      SubmitResult.accepted :=
  (dispatcher_queue_capacity conf.Dispatcher DispatcherState.initial exJobFast
      (by decide) (by decide)).1.mpr (by decide)

/-- **C9**: the daemon's Dispatcher configuration (src/cmd/commands.go, `var conf`)
is QueueFast = 10, QueueSlow = 1, Concurrent = 2, TrackDuplicateIds = 1000;
consequently every reachable daemon state runs at most 2 jobs, and a fresh
slow-lane submission while one slow-lane job is already queued is rejected with
`QueueFull`. -/
theorem daemon_conf_values_and_consequences (s : DispatcherState)
    (h : Dispatcher.Reachable conf.Dispatcher s) (j : Job)
    (hl : j.lane = Lane.slow) (hq : s.slowQueue.length = 1)
    (hfi : j.requestId ∉ s.inflight) (hfr : j.requestId ∉ s.recent) :
    conf.Dispatcher.QueueFast = 10 ∧ conf.Dispatcher.QueueSlow = 1 ∧
    conf.Dispatcher.Concurrent = 2 ∧ conf.Dispatcher.TrackDuplicateIds = 1000 ∧
    s.running.length ≤ 2 ∧
    (Dispatcher.submit conf.Dispatcher s j).1 = SubmitResult.queueFull := by
  have hdup : ¬(j.requestId ∈ s.inflight ∨ j.requestId ∈ s.recent) := by
    intro hc
    rcases hc with hc | hc
    · exact hfi hc
    · exact hfr hc
  refine ⟨rfl, rfl, rfl, rfl, ?_, ?_⟩
  · exact (dispatcherInv_reachable conf.Dispatcher s h).1
  · unfold Dispatcher.submit
    simp only [hdup, if_false, hl]
    have hnl : ¬(s.slowQueue.length < conf.Dispatcher.QueueSlow) := by
      show ¬(s.slowQueue.length < 1)
      omega
    simp only [hnl, if_false]

/-- Witness for C9: with one slow job queued in the daemon Dispatcher, a second
fresh slow submission is rejected with `QueueFull`. -/
theorem daemon_conf_witness :
    (Dispatcher.submit conf.Dispatcher exState2 exJobSlow2).1 =
      SubmitResult.queueFull :=
  (daemon_conf_values_and_consequences exState2
      (Dispatcher.Reachable.step (DEvent.submit exJobSlow) Dispatcher.Reachable.init)
      exJobSlow2 rfl (by decide) (by decide) (by decide)).2.2.2.2.2

/-! ## Executor (modelled from the spec)

Modelled from the spec: §4.2 Executor — the `Executor` struct of the cmd
package (its `StreamAndExit` and `Gather` methods and `LocalInit` hook) is
not under `src/`; only its call sites in `src/cmd/commands.go` are.  The
per-target execution outcome (local dispatch or remote RPC) is abstracted
as a function from Locator to a result or a per-target error.
-/

/-- Events observable during a fan-out execution: the `LocalInit` hook
running, and the dispatch of one job for one Locator. -/
inductive ExecEvent (L : Type) where
  | localInitRun
  | dispatch (l : L)

/-- The outcome of stream-and-exit mode: the event trace, the per-target
outputs in the order written, the process exit code, and the `LocalInit`
error if the hook failed. -/
structure StreamResult (L E O : Type) where
  trace : List (ExecEvent L)
  outputs : List (L × Except E O)
  exit : Nat
  initError : Option E

/-- Whether a per-target execution outcome is a failure. -/
def execFailed {E O : Type} : Except E O → Bool
  | Except.error _ => true
  | Except.ok _ => false

/-- Modelled from the spec: §4.2 stream-and-exit — run `LocalInit` first when
present and abort before any dispatch if it fails; otherwise dispatch one job
per Locator in the caller-specified order, write each target's output in that
same order (failures do not abort remaining targets), and exit non-zero iff
at least one target failed. -/
def Executor.streamAndExit {L E O : Type} (localInit : Option (Except E Unit))
    (outcome : L → Except E O) (locs : List L) : StreamResult L E O :=
  match localInit with
  | some (Except.error e) =>
    { trace := [ExecEvent.localInitRun], outputs := [], exit := 1, initError := some e }
  | some (Except.ok _) =>
    { trace := ExecEvent.localInitRun :: locs.map ExecEvent.dispatch,
      outputs := locs.map fun l => (l, outcome l),
      exit := if locs.any (fun l => execFailed (outcome l)) then 1 else 0,
      initError := none }
  | none =>
    { trace := locs.map ExecEvent.dispatch,
      outputs := locs.map fun l => (l, outcome l),
      exit := if locs.any (fun l => execFailed (outcome l)) then 1 else 0,
      initError := none }

/-- Modelled from the spec: the ordered collection of per-target buffers
returned by Gather, with the error placeholder at each failed target's
position. -/
def Executor.gatherData {L E O : Type} (outcome : L → Except E O) (locs : List L) :
    List (Except E O) :=
  locs.map outcome

/-- Modelled from the spec: the ordered error list returned by Gather, each
error attributed to its originating Locator. -/
def Executor.gatherErrors {L E O : Type} (outcome : L → Except E O) (locs : List L) :
    List (L × E) :=
  locs.filterMap fun l =>
    match outcome l with
    | Except.error e => some (l, e)
    | Except.ok _ => none

/-- Modelled from the spec: §4.2 Gather — run `LocalInit` first when present
and abort before any dispatch if it fails; otherwise dispatch all jobs and
return the position-keyed buffers together with the ordered error list. -/
def Executor.gather {L E O : Type} (localInit : Option (Except E Unit))
    (outcome : L → Except E O) (locs : List L) :
    Except E (List (Except E O) × List (L × E)) :=
  match localInit with
  | some (Except.error e) => Except.error e
  | _ => Except.ok (Executor.gatherData outcome locs, Executor.gatherErrors outcome locs)

/-- **C4**: Gather returns the per-target results ordered by Locator position
with the error placeholder at the failed target's position and a separate
error list holding exactly the failed targets' errors; each position's result
depends only upon its own target's outcome.  In particular over `[A, B, C]`
with B failing it returns `[A-result, B-error, C-result]` and exactly B's
error. -/
theorem executor_gather_order_and_isolation {L E O : Type}
    (A B C : L) (outcome : L → Except E O) (a c : O) (eb : E)
    (ha : outcome A = Except.ok a) (hb : outcome B = Except.error eb)
    (hc : outcome C = Except.ok c) :
    Executor.gather none outcome [A, B, C] =
      Except.ok ([Except.ok a, Except.error eb, Except.ok c], [(B, eb)])
    ∧ (∀ (locs : List L) (i : Nat) (hi : i < locs.length)
        (hi2 : i < (Executor.gatherData outcome locs).length),
        (Executor.gatherData outcome locs).get ⟨i, hi2⟩ = outcome (locs.get ⟨i, hi⟩))
    ∧ (∀ (locs : List L) (le : L × E),
        le ∈ Executor.gatherErrors outcome locs ↔
          le.1 ∈ locs ∧ outcome le.1 = Except.error le.2) := by
  refine ⟨?_, ?_, ?_⟩
  · simp [Executor.gather, Executor.gatherData, Executor.gatherErrors, ha, hb, hc]
  · intro locs i hi hi2
    simp [Executor.gatherData]
  · intro locs le
    constructor
    · intro hmem
      rcases List.mem_filterMap.mp hmem with ⟨l, hl, hf⟩
      cases hout : outcome l with
      | error e =>
        rw [hout] at hf
        simp only [Option.some.injEq] at hf
        rw [← hf]
        exact ⟨hl, hout⟩
      | ok o =>
        rw [hout] at hf
        exact absurd hf (by simp)
    · intro hpair
      apply List.mem_filterMap.mpr
      refine ⟨le.1, hpair.1, ?_⟩
      rw [hpair.2]

/-- A concrete per-target outcome function: target 1 fails, others succeed. -/
def exOutcome : Nat → Except String Nat :=
  fun n => if n = 1 then Except.error "fail at B" else Except.ok n

/-- Witness for C4 over targets `[0, 1, 2]` with target 1 failing. -/
theorem executor_gather_witness :
    Executor.gather none exOutcome [0, 1, 2] =
      Except.ok ([Except.ok 0, Except.error "fail at B", Except.ok 2],
        [(1, "fail at B")]) :=
  (executor_gather_order_and_isolation 0 1 2 exOutcome 0 2 "fail at B" rfl rfl rfl).1

/-- **C5**: in stream-and-exit mode (with a LocalInit hook that does not fail,
or none), the Executor dispatches every target even when some fail, writes each
target's output in the caller-specified order, and the process exit status is
non-zero iff at least one target failed. -/
theorem executor_stream_and_exit_fanout {L E O : Type}
    (localInit : Option (Except E Unit)) (outcome : L → Except E O) (locs : List L)
    (hinit : ∀ e, localInit ≠ some (Except.error e)) :
    (∀ l ∈ locs,
        ExecEvent.dispatch l ∈ (Executor.streamAndExit localInit outcome locs).trace)
    ∧ (Executor.streamAndExit localInit outcome locs).outputs =
        locs.map (fun l => (l, outcome l))
    ∧ ((Executor.streamAndExit localInit outcome locs).exit ≠ 0 ↔
        ∃ l ∈ locs, execFailed (outcome l) = true) := by
  cases localInit with
  | none =>
    refine ⟨?_, rfl, ?_⟩
    · intro l hl
      simp only [Executor.streamAndExit, List.mem_map]
      exact ⟨l, hl, rfl⟩
    · simp only [Executor.streamAndExit]
      by_cases hany : locs.any (fun l => execFailed (outcome l)) = true
      · simp only [hany, if_true]
        rw [List.any_eq_true] at hany
        simpa using hany
      · simp only [hany, if_false]
        rw [List.any_eq_true] at hany
        simpa using hany
  | some r =>
    cases r with
    | error e => exact absurd rfl (hinit e)
    | ok u =>
      refine ⟨?_, rfl, ?_⟩
      · intro l hl
        simp only [Executor.streamAndExit, List.mem_cons, List.mem_map]
        exact Or.inr ⟨l, hl, rfl⟩
      · simp only [Executor.streamAndExit]
        by_cases hany : locs.any (fun l => execFailed (outcome l)) = true
        · simp only [hany, if_true]
          rw [List.any_eq_true] at hany
          simpa using hany
        · simp only [hany, if_false]
          rw [List.any_eq_true] at hany
          simpa using hany

/-- Witness for C5: streaming over `[0, 1, 2]` with target 1 failing exits
non-zero. -/
theorem executor_stream_witness :
    (Executor.streamAndExit none exOutcome [0, 1, 2]).exit ≠ 0 :=
  ((executor_stream_and_exit_fanout none exOutcome [0, 1, 2]
      (fun _ h => by cases h)).2.2).mpr ⟨1, by decide, rfl⟩

/-- **C7**: when a LocalInit hook is present it is the first event of the
trace and occurs nowhere among the dispatches, so it runs exactly once before
any dispatch; if it fails, stream-and-exit dispatches zero jobs (trace holds
only the hook run), emits no output, exits non-zero carrying the hook's error,
and gather likewise fails with exactly the hook's error before any dispatch. -/
theorem executor_local_init_gate {L E O : Type}
    (localInit : Option (Except E Unit)) (outcome : L → Except E O) (locs : List L) :
    (∀ e, localInit = some (Except.error e) →
      Executor.streamAndExit localInit outcome locs =
        { trace := [ExecEvent.localInitRun], outputs := [], exit := 1,
          initError := some e }
      ∧ Executor.gather localInit outcome locs = Except.error e)
    ∧ (∀ u, localInit = some (Except.ok u) →
        (Executor.streamAndExit localInit outcome locs).trace =
          ExecEvent.localInitRun :: locs.map ExecEvent.dispatch)
    ∧ ExecEvent.localInitRun ∉ locs.map (ExecEvent.dispatch (L := L)) := by
  refine ⟨?_, ?_, ?_⟩
  · intro e he
    subst he
    exact ⟨rfl, rfl⟩
  · intro u hu
    subst hu
    rfl
  · intro hmem
    rcases List.mem_map.mp hmem with ⟨l, _, heq⟩
    cases heq

/-- Witness for C7: a failing LocalInit hook aborts before any dispatch with
the hook's error. -/
theorem executor_local_init_witness :
    Executor.streamAndExit (some (Except.error "systemd unavailable")) exOutcome [0, 1, 2] =
      { trace := [ExecEvent.localInitRun], outputs := [], exit := 1,
        initError := some "systemd unavailable" } :=
  ((executor_local_init_gate (some (Except.error "systemd unavailable")) exOutcome
      [0, 1, 2]).1 "systemd unavailable" rfl).1

/-! ## Locator resolution (modelled from the spec)

Modelled from the spec: §4.3 — `Parse(s)`: a string without `/` denotes a
local-style Identifier; `host[:port]/id` denotes `Remote{host, port-or-2223,
id}`; fails with `InvalidLocator` on an empty host or an invalid identifier.
The `RemoteIdentifier` / `NewRemoteIdentifiers` code of the cmd package is
not under `src/`; the default port 2223 appears in the installImage help text
(src/cmd/commands.go line 56).  Strings are modelled as `List Char`.
-/

/-- A parsed Locator: local identifier or remote `host:port/id` target. -/
inductive Locator where
  | localId (id : List Char)
  | remote (host : List Char) (port : Nat) (id : List Char)
deriving DecidableEq, Repr

/-- The error of Locator parsing (spec §7). -/
inductive LocatorErr where
  | invalidLocator
deriving DecidableEq, Repr

/-- The default port used when `:port` is omitted. -/
def defaultPort : Nat := 2223

/-- Split a character list at the first occurrence of `sep`; `none` when
`sep` does not occur. -/
def splitOnFirst (sep : Char) : List Char → Option (List Char × List Char)
  | [] => none
  | c :: cs =>
    if c = sep then some ([], cs)
    else
      match splitOnFirst sep cs with
      | some (pre, post) => some (c :: pre, post)
      | none => none

/-- Whether a character may appear in an Identifier.  Modelled from the spec:
a restricted charset suitable for a systemd unit name component (spec §3
Identifier). -/
def validIdChar (c : Char) : Bool := c.isAlphanum || c = '-'

/-- Identifier validation (spec §3): non-empty and restricted charset. -/
def validId (cs : List Char) : Bool := !cs.isEmpty && cs.all validIdChar

/-- The numeric value of a digit string. -/
def portVal (cs : List Char) : Nat :=
  cs.foldl (fun acc c => acc * 10 + (c.toNat - 48)) 0

/-- Port parsing: non-empty, all digits, and in 16-bit range. -/
def parsePort (cs : List Char) : Option Nat :=
  if !cs.isEmpty && cs.all Char.isDigit && decide (portVal cs ≤ 65535) then
    some (portVal cs)
  else none

/-- Modelled from the spec: §4.3 `Parse(s) -> Locator`. -/
def parseLocator (s : List Char) : Except LocatorErr Locator :=
  match splitOnFirst '/' s with
  | none =>
    if validId s then Except.ok (Locator.localId s)
    else Except.error LocatorErr.invalidLocator
  | some (pre, idPart) =>
    if validId idPart then
      match splitOnFirst ':' pre with
      | none =>
        if pre.isEmpty then Except.error LocatorErr.invalidLocator
        else Except.ok (Locator.remote pre defaultPort idPart)
      | some (host, portPart) =>
        if host.isEmpty then Except.error LocatorErr.invalidLocator
        else
          match parsePort portPart with
          | some p => Except.ok (Locator.remote host p idPart)
          | none => Except.error LocatorErr.invalidLocator
    else Except.error LocatorErr.invalidLocator

theorem splitOnFirst_eq_none_of_not_mem (sep : Char) (l : List Char) (h : sep ∉ l) :
    splitOnFirst sep l = none := by
  induction l with
  | nil => rfl
  | cons c cs ih =>
    have hcs : sep ∉ cs := fun hc => h (List.mem_cons_of_mem c hc)
    have hne : ¬(c = sep) := fun he => h (he ▸ List.mem_cons_self c cs)
    simp only [splitOnFirst, hne, if_false, ih hcs]

theorem splitOnFirst_append_sep (sep : Char) (pre post : List Char) (h : sep ∉ pre) :
    splitOnFirst sep (pre ++ sep :: post) = some (pre, post) := by
  induction pre with
  | nil => simp [splitOnFirst]
  | cons c cs ih =>
    have hcs : sep ∉ cs := fun hc => h (List.mem_cons_of_mem c hc)
    have hne : ¬(c = sep) := fun he => h (he ▸ List.mem_cons_self c cs)
    simp only [List.cons_append, splitOnFirst, hne, if_false, List.append_eq, ih hcs]

/-- **C6**: for every target of the form `host:port/id` with a non-empty host
(free of `/` and `:`), a valid port and a valid identifier, Parse yields
`Remote{host, port, id}`; omitting `:port` yields the default port 2223. -/
theorem parse_remote_locator (host portCs id : List Char) (p : Nat)
    (hhost : host.isEmpty = false)
    (hslash : ('/' : Char) ∉ host) (hcolon : (':' : Char) ∉ host)
    (hport : parsePort portCs = some p) (hid : validId id = true) :
    parseLocator (host ++ ':' :: portCs ++ '/' :: id) =
      Except.ok (Locator.remote host p id)
    ∧ parseLocator (host ++ '/' :: id) =
      Except.ok (Locator.remote host defaultPort id) := by
  have hdig : portCs.all Char.isDigit = true := by
    unfold parsePort at hport
    split at hport
    · rename_i hcond
      simp only [Bool.and_eq_true] at hcond
      exact hcond.1.2
    · exact absurd hport (by simp)
  have hslashPort : ('/' : Char) ∉ portCs := by
    intro hmem
    have hd := List.all_eq_true.mp hdig '/' hmem
    exact absurd hd (by decide)
  constructor
  · have heq1 : host ++ ':' :: portCs ++ '/' :: id
        = (host ++ ':' :: portCs) ++ '/' :: id := by
      simp
    have hpre1 : ('/' : Char) ∉ host ++ ':' :: portCs := by
      simp only [List.mem_append, List.mem_cons]
      intro hc
      rcases hc with hc | hc | hc
      · exact hslash hc
      · exact absurd hc (by decide)
      · exact hslashPort hc
    unfold parseLocator
    rw [heq1, splitOnFirst_append_sep '/' (host ++ ':' :: portCs) id hpre1]
    simp only [hid, if_true]
    rw [splitOnFirst_append_sep ':' host portCs hcolon]
    simp only [hhost, Bool.false_eq_true, if_false]
    rw [hport]
  · have hpre2 : ('/' : Char) ∉ host := hslash
    unfold parseLocator
    rw [splitOnFirst_append_sep '/' host id hpre2]
    simp only [hid, if_true]
    rw [splitOnFirst_eq_none_of_not_mem ':' host hcolon]
    simp only [hhost, Bool.false_eq_true, if_false]

/-- Witness for C6: `ho:80/ab` parses to `Remote{ho, 80, ab}`. -/
theorem parse_remote_witness :
    parseLocator (['h', 'o'] ++ ':' :: ['8', '0'] ++ '/' :: ['a', 'b']) =
      Except.ok (Locator.remote ['h', 'o'] 80 ['a', 'b']) :=
  (parse_remote_locator ['h', 'o'] ['8', '0'] ['a', 'b'] 80 (by decide) (by decide)
    (by decide) (by decide) (by decide)).1

/-! ## Job factories of the CLI layer (embedded from src/cmd/commands.go) -/

/-- Modelled from the spec: `jobs.NewRequestIdentifier` (package jobs, not
under `src/`) returns a process-unique token, fresh per call and never reused
(spec §3 RequestIdentifier); modelled as a counter threaded through the
factory invocations. -/
def NewRequestIdentifier (gen : Nat) : Nat × Nat := (gen, gen + 1)

/-- Embedded from `src/cmd/commands.go` lines 198-211 (installImage): the
fields its `Serial` factory fills in for an install job. -/
structure InstallContainerRequest where
  RequestIdentifier : Nat
  Id : List Char
  Image : String
  Started : Bool
deriving DecidableEq, Repr

/-- Embedded from `src/cmd/commands.go` lines 297-303 (startContainer): its
`Serial` factory sets only the target `Id`. -/
structure StartedContainerStateRequest where
  Id : List Char
deriving DecidableEq, Repr

/-- The jobs produced by the two cited CLI factories. -/
inductive JobRequest where
  | install (r : InstallContainerRequest)
  | started (r : StartedContainerStateRequest)
deriving DecidableEq, Repr

/-- The RequestIdentifier a factory attached at creation, if any: the
startContainer factory fills in only `Id` and attaches none. -/
def attachedRequestIdentifier : JobRequest → Option Nat
  | JobRequest.install r => some r.RequestIdentifier
  | JobRequest.started _ => none

/-- Embedded from `src/cmd/commands.go` lines 198-211: one invocation of the
installImage `Serial` factory calls `jobs.NewRequestIdentifier()` afresh. -/
def installSerial (imageId : String) (started : Bool) (gen : Nat) (onId : List Char) :
    Nat × JobRequest :=
  let fresh := NewRequestIdentifier gen
  (fresh.2, JobRequest.install
    { RequestIdentifier := fresh.1, Id := onId, Image := imageId, Started := started })

/-- Embedded from `src/cmd/commands.go` lines 297-303: the startContainer
`Serial` factory. -/
def startSerial (onId : List Char) : JobRequest :=
  JobRequest.started { Id := onId }

/-- The installImage factory run once per Locator, in order, threading the
identifier generator. -/
def installSerialAll (imageId : String) (started : Bool) (gen : Nat) :
    List (List Char) → Nat × List JobRequest
  | [] => (gen, [])
  | l :: ls =>
    let first := installSerial imageId started gen l
    let rest := installSerialAll imageId started first.1 ls
    (rest.1, first.2 :: rest.2)

theorem installSerialAll_ids (imageId : String) (started : Bool) (gen : Nat)
    (ls : List (List Char)) :
    (installSerialAll imageId started gen ls).2.filterMap attachedRequestIdentifier =
      List.range' gen ls.length := by
  induction ls generalizing gen with
  | nil => rfl
  | cons l ls ih =>
    simp only [installSerialAll, installSerial, NewRequestIdentifier, List.length_cons,
      List.filterMap_cons, attachedRequestIdentifier, List.range'_succ]
    exact congrArg (gen :: ·) (ih (gen + 1))

/-- Counterexample to **C8**: the job created by the startContainer `Serial`
factory (src/cmd/commands.go lines 297-303) carries no RequestIdentifier at
creation, and two invocations for distinct Locators attach the same (absent)
identifier — so not every Job carries a fresh identifier attached at
creation. -/
theorem startContainer_attaches_no_request_identifier :
    attachedRequestIdentifier (startSerial ['a']) = none
    ∧ startSerial ['a'] ≠ startSerial ['b']
    ∧ attachedRequestIdentifier (startSerial ['a']) =
        attachedRequestIdentifier (startSerial ['b']) := by
  refine ⟨rfl, ?_, rfl⟩
  decide

/-- **C8 (amended)**: jobs created by the installImage `Serial` factory each
carry a RequestIdentifier generated fresh per invocation — one run yields the
consecutive identifiers `gen, gen+1, ...`, pairwise distinct — while the
startContainer factory attaches no RequestIdentifier at creation. -/
theorem install_request_identifiers_fresh (imageId : String) (started : Bool)
    (gen : Nat) (ls : List (List Char)) :
    (installSerialAll imageId started gen ls).2.filterMap attachedRequestIdentifier =
      List.range' gen ls.length
    ∧ ((installSerialAll imageId started gen ls).2.filterMap
        attachedRequestIdentifier).Nodup
    ∧ (∀ onId, attachedRequestIdentifier (startSerial onId) = none) := by
  refine ⟨installSerialAll_ids imageId started gen ls, ?_, fun _ => rfl⟩
  rw [installSerialAll_ids imageId started gen ls]
  exact List.nodup_range' gen ls.length

/-! ## set-env shared environment description (embedded from src/cmd/commands.go) -/

/-- Embedded from `src/cmd/commands.go`: the description record inside the
package-level `environment` variable (line 27), shared by every set-env job. -/
structure EnvDescription where
  Id : List Char
  Source : String
deriving DecidableEq, Repr

/-- The two set-env job kinds (`--reset` chooses put over patch); each holds
only a pointer to the single shared description. -/
inductive EnvJob where
  | put
  | patch
deriving DecidableEq, Repr

/-- Embedded from `src/cmd/commands.go` lines 233-243: one invocation of the
set-env `Serial` factory — it assigns `environment.Description.Id = on.Id`,
mutating the shared description, and returns a job holding
`&environment.Description`. -/
def setEnvSerial (resetEnv : Bool) (desc : EnvDescription) (onId : List Char) :
    EnvDescription × EnvJob :=
  let desc2 := { desc with Id := onId }
  (desc2, if resetEnv then EnvJob.put else EnvJob.patch)

/-- The factory run once per Locator in order, threading the shared
description state. -/
def setEnvRun (resetEnv : Bool) (desc : EnvDescription) :
    List (List Char) → EnvDescription × List EnvJob
  | [] => (desc, [])
  | l :: ls =>
    let first := setEnvSerial resetEnv desc l
    let rest := setEnvRun resetEnv first.1 ls
    (rest.1, first.2 :: rest.2)

/-- The description a set-env job observes when serialized after the fan-out
loop: every job aliases the one shared `environment.Description`, so it reads
the current shared state, not a per-job copy. -/
def EnvJob.observedDescription (shared : EnvDescription) (_ : EnvJob) :
    EnvDescription := shared

theorem setEnvRun_final_id (resetEnv : Bool) (desc : EnvDescription)
    (ls : List (List Char)) (h : ls ≠ []) :
    (setEnvRun resetEnv desc ls).1.Id = ls.getLast h := by
  induction ls generalizing desc with
  | nil => exact absurd rfl h
  | cons l ls ih =>
    cases ls with
    | nil => rfl
    | cons l2 ls2 =>
      have h2 : l2 :: ls2 ≠ [] := by simp
      rw [List.getLast_cons h2]
      exact ih (setEnvSerial resetEnv desc l).1 h2

/-- **C10**: the set-env `Serial` factory is not a pure function of its
Locator — each invocation overwrites the shared description's Id with its
Locator's Id, every returned job aliases that same shared description, and
after the whole run every job (including every earlier one) observes the Id
of the last Locator; an earlier Locator whose Id differs from the last one is
therefore not what its own job's description carries. -/
theorem setenv_shared_description_last_wins (resetEnv : Bool) (desc : EnvDescription)
    (ls : List (List Char)) (h : ls ≠ []) :
    (∀ d onId, (setEnvSerial resetEnv d onId).1.Id = onId)
    ∧ (setEnvRun resetEnv desc ls).1.Id = ls.getLast h
    ∧ (∀ j ∈ (setEnvRun resetEnv desc ls).2,
        (EnvJob.observedDescription (setEnvRun resetEnv desc ls).1 j).Id = ls.getLast h)
    ∧ (∀ j ∈ (setEnvRun resetEnv desc ls).2, ∀ onId ∈ ls, onId ≠ ls.getLast h →
        (EnvJob.observedDescription (setEnvRun resetEnv desc ls).1 j).Id ≠ onId) := by
  refine ⟨fun d onId => rfl, setEnvRun_final_id resetEnv desc ls h, ?_, ?_⟩
  · intro j hj
    exact setEnvRun_final_id resetEnv desc ls h
  · intro j hj onId hon hne
    rw [show (EnvJob.observedDescription (setEnvRun resetEnv desc ls).1 j).Id
        = (setEnvRun resetEnv desc ls).1.Id from rfl,
      setEnvRun_final_id resetEnv desc ls h]
    exact fun he => hne he.symm

/-- Witness for C10: running the factory over Locator ids `[a, b]` leaves the
shared description carrying `b`, the last Locator's id. -/
theorem setenv_shared_description_witness :
    (setEnvRun false { Id := ['x'], Source := "u" } [['a'], ['b']]).1.Id = ['b'] :=
  ((setenv_shared_description_last_wins false { Id := ['x'], Source := "u" }
      [['a'], ['b']] (by decide)).2.1).trans (by decide)
